import Mathlib

/-
  Verification of the LectureLens per-key coordination core.

  Shallow embedding of:
    - src/worker-backend/src/RateLimiter.ts   (fixed-window rate limiter actor)
    - src/worker-backend/src/LectureMemory.ts (lecture memory actor: chat, lecture storage)
    - src/worker-backend/src/index.ts         (chunked summarization / extraction pipeline)

  Timestamps (JS `Date.now()`, milliseconds) are modelled as `Nat` parameters.
  Durable-object storage for the rate limiter (one JS object mapping endpoint
  names to windows under the single key 'limits') is modelled as a function
  `String → Option RateLimitWindow`; `putW`/`delW` are pointwise updates
  mirroring `limits[endpoint] = window` / `delete limits[endpoint]`.
-/

namespace LectureLens

/-! ## Rate limiter (src/worker-backend/src/RateLimiter.ts) -/

/-- `interface RateLimitWindow` (RateLimiter.ts lines 2-6). -/
structure RateLimitWindow where
  count : Nat
  windowStart : Nat
  windowDuration : Nat
deriving DecidableEq, Repr

/-- `interface RateLimitConfig` (RateLimiter.ts lines 8-11). -/
structure RateLimitConfig where
  maxRequests : Nat
  windowSeconds : Nat
deriving DecidableEq, Repr

/-- `interface RateLimitStatus` (RateLimiter.ts lines 13-19). -/
structure RateLimitStatus where
  allowed : Bool
  limit : Nat
  remaining : Nat
  resetAt : Nat
  retryAfter : Nat
deriving DecidableEq, Repr

/-- `RATE_LIMIT_CONFIG` (RateLimiter.ts lines 26-51). -/
def RATE_LIMIT_CONFIG (endpoint : String) : Option RateLimitConfig :=
  if endpoint = "chat" then some ⟨15, 60⟩
  else if endpoint = "summarize" then some ⟨5, 3600⟩
  else if endpoint = "extract" then some ⟨5, 3600⟩
  else if endpoint = "upload" then some ⟨10, 3600⟩
  else if endpoint = "signup" then some ⟨3, 3600⟩
  else if endpoint = "login" then some ⟨10, 3600⟩
  else none

/-- The object stored under the 'limits' storage key: a mapping from endpoint
name to window (`interface LimitsStorage`). Absent storage key is the constant
`none` map (the code substitutes `{}` on read). -/
abbrev LimitsStorage := String → Option RateLimitWindow

/-- `limits[endpoint] = window` on the stored object. -/
def putW (st : LimitsStorage) (endpoint : String) (w : RateLimitWindow) : LimitsStorage :=
  fun e => if e = endpoint then some w else st e

/-- `delete limits[endpoint]` on the stored object. -/
def delW (st : LimitsStorage) (endpoint : String) : LimitsStorage :=
  fun e => if e = endpoint then none else st e

/-- The condition `!window || now >= window.windowStart + window.windowDuration`
(RateLimiter.ts line 186 and line 241). -/
def windowExpired (w0 : Option RateLimitWindow) (now : Nat) : Bool :=
  match w0 with
  | none => true
  | some w => decide (now ≥ w.windowStart + w.windowDuration)

/-- `checkLimit` (RateLimiter.ts lines 160-222): returns the storage after the
call (a fresh window is persisted when absent/expired, line 194) and the
status. `Math.max(0, Math.ceil((resetAt - now) / 1000))` coincides with
`max 0 ((resetAt - now + 999) / 1000)` over `Nat` (truncated subtraction
realizes the clamp for `now > resetAt`). -/
def checkLimit (st : LimitsStorage) (endpoint : String) (now : Nat) :
    LimitsStorage × RateLimitStatus :=
  match RATE_LIMIT_CONFIG endpoint with
  | none =>
    (st, { allowed := true, limit := 999999, remaining := 999999,
           resetAt := now + 3600000, retryAfter := 0 })
  | some config =>
    let windowDuration := config.windowSeconds * 1000
    let window : RateLimitWindow :=
      if windowExpired (st endpoint) now then ⟨0, now, windowDuration⟩
      else (st endpoint).getD ⟨0, now, windowDuration⟩
    let st' := if windowExpired (st endpoint) now then putW st endpoint window else st
    if window.count ≥ config.maxRequests then
      (st', { allowed := false, limit := config.maxRequests, remaining := 0,
              resetAt := window.windowStart + window.windowDuration,
              retryAfter := max 0 ((window.windowStart + window.windowDuration - now + 999) / 1000) })
    else
      (st', { allowed := true, limit := config.maxRequests,
              remaining := config.maxRequests - window.count,
              resetAt := window.windowStart + window.windowDuration,
              retryAfter := 0 })

/-- `incrementCounter` (RateLimiter.ts lines 227-256). -/
def incrementCounter (st : LimitsStorage) (endpoint : String) (now : Nat) : LimitsStorage :=
  match RATE_LIMIT_CONFIG endpoint with
  | none => st
  | some config =>
    let windowDuration := config.windowSeconds * 1000
    let window : RateLimitWindow :=
      if windowExpired (st endpoint) now then ⟨0, now, windowDuration⟩
      else (st endpoint).getD ⟨0, now, windowDuration⟩
    putW st endpoint ⟨window.count + 1, window.windowStart, window.windowDuration⟩

/-- `handleCheck` (RateLimiter.ts lines 100-106). -/
def handleCheck (st : LimitsStorage) (endpoint : String) (now : Nat) :
    LimitsStorage × RateLimitStatus :=
  checkLimit st endpoint now

/-- `handleCheckAndIncrement` (RateLimiter.ts lines 111-130): check, then if
allowed increment and return the re-checked ("updated") status. The three
`Date.now()` reads are the parameters `t1 t2 t3`. -/
def handleCheckAndIncrement (st : LimitsStorage) (endpoint : String) (t1 t2 t3 : Nat) :
    LimitsStorage × RateLimitStatus :=
  let r := checkLimit st endpoint t1
  if r.2.allowed then
    let st2 := incrementCounter r.1 endpoint t2
    checkLimit st2 endpoint t3
  else r

/-- `handleReset` (RateLimiter.ts lines 135-144): state effect. -/
def handleReset (st : LimitsStorage) (endpoint : String) : LimitsStorage :=
  delW st endpoint

/-- `handleResetAll` (RateLimiter.ts lines 149-155): state effect. -/
def handleResetAll (_st : LimitsStorage) : LimitsStorage :=
  fun _ => none

/-- The four operations of the rate limiter actor (`fetch` routing,
RateLimiter.ts lines 71-78). -/
inductive RLOp
  | check (endpoint : String) (now : Nat)
  | checkAndIncrement (endpoint : String) (t1 t2 t3 : Nat)
  | reset (endpoint : String)
  | resetAll

/-- State effect of one rate limiter operation. -/
def rlStep (st : LimitsStorage) : RLOp → LimitsStorage
  | .check ep now => (handleCheck st ep now).1
  | .checkAndIncrement ep t1 t2 t3 => (handleCheckAndIncrement st ep t1 t2 t3).1
  | .reset ep => handleReset st ep
  | .resetAll => handleResetAll st

/-- Empty rate-limit storage (no 'limits' key yet). -/
def rlEmpty : LimitsStorage := fun _ => none

/-- First `CheckAndIncrement("signup")` call at t = 0 from empty storage. -/
def signupRun1 : LimitsStorage × RateLimitStatus :=
  handleCheckAndIncrement rlEmpty ("signup") 0 0 0

/-- Second `CheckAndIncrement("signup")` call within the same window. -/
def signupRun2 : LimitsStorage × RateLimitStatus :=
  handleCheckAndIncrement signupRun1.1 ("signup") 0 0 0

/-- Third `CheckAndIncrement("signup")` call within the same window. -/
def signupRun3 : LimitsStorage × RateLimitStatus :=
  handleCheckAndIncrement signupRun2.1 ("signup") 0 0 0

/-- Claim C1 (status: code_bug). The spec requires the first N = maxRequests
`CheckAndIncrement` calls of a fresh window to return `allowed=true` with
remaining N-1, …, 0. For the configured endpoint signup (maxRequests = 3),
three calls at time 0 from empty storage give: call 1 allowed with
remaining 2, call 2 allowed with remaining 1, but call 3 increments the
stored count to 3 and then returns the re-checked post-increment status
`allowed=false`, remaining 0, retryAfter 3600 — the Nth request is counted
yet denied, so only N-1 requests per window are ever reported allowed. -/
theorem rateLimiter_third_signup_call_denied :
    signupRun1.2.allowed = true ∧ signupRun1.2.remaining = 2 ∧
    signupRun2.2.allowed = true ∧ signupRun2.2.remaining = 1 ∧
    signupRun3.2.allowed = false ∧ signupRun3.2.remaining = 0 ∧
    signupRun3.2.retryAfter = 3600 ∧
    signupRun3.1 ("signup") = some ⟨3, 0, 3600000⟩ := by
  decide

/-- Claim C8: a `CheckAndIncrement` call on a configured endpoint whose current
window is unexpired and already at `count ≥ maxRequests` returns
`allowed=false`, `remaining=0`, `retryAfter = ceil((resetAt-now)/1000)`
clamped to ≥ 0, and leaves the stored state entirely unchanged (a denied
call never increments). -/
theorem denied_call_preserves_state (st : LimitsStorage) (ep : String)
    (cfg : RateLimitConfig) (w : RateLimitWindow) (t1 t2 t3 : Nat)
    (hcfg : RATE_LIMIT_CONFIG ep = some cfg) (hw : st ep = some w)
    (hlive : t1 < w.windowStart + w.windowDuration)
    (hfull : w.count ≥ cfg.maxRequests) :
    handleCheckAndIncrement st ep t1 t2 t3 =
      (st, { allowed := false, limit := cfg.maxRequests, remaining := 0,
             resetAt := w.windowStart + w.windowDuration,
             retryAfter := max 0 ((w.windowStart + w.windowDuration - t1 + 999) / 1000) }) := by
  have hexp : windowExpired (some w) t1 = false := by
    simp only [windowExpired, decide_eq_false_iff_not]
    omega
  have hcl : checkLimit st ep t1 =
      (st, { allowed := false, limit := cfg.maxRequests, remaining := 0,
             resetAt := w.windowStart + w.windowDuration,
             retryAfter := max 0 ((w.windowStart + w.windowDuration - t1 + 999) / 1000) }) := by
    unfold checkLimit
    rw [hcfg]
    simp only [hw, hexp, Bool.false_eq_true, if_false, Option.getD_some]
    rw [if_pos hfull]
  unfold handleCheckAndIncrement
  rw [hcl]
  simp

/-- Witness for C8: the spec scenario — endpoint chat, window full at 15,
window started at 0 with duration 60000 ms, call at t = 10000 ms: denied with
retryAfter 50 and storage untouched. -/
theorem denied_call_preserves_state_witness :
    handleCheckAndIncrement
        (fun e => if e = "chat" then some ⟨15, 0, 60000⟩ else none)
        ("chat") 10000 10000 10000 =
      ((fun e => if e = "chat" then some ⟨15, 0, 60000⟩ else none),
       { allowed := false, limit := 15, remaining := 0,
         resetAt := 60000, retryAfter := 50 }) := by
  exact denied_call_preserves_state
    (fun e => if e = "chat" then some ⟨15, 0, 60000⟩ else none)
    ("chat") ⟨15, 60⟩ ⟨15, 0, 60000⟩ 10000 10000 10000
    (by decide) (by decide) (by decide) (by decide)

/-- Counterexample to claim C3: `Check` is not read-only. On endpoint chat
with a stored expired window `{count 5, windowStart 0, windowDuration 60000}`,
a `Check` at t = 60000 persists a fresh window `{count 0, windowStart 60000}`:
durable storage changes and the stored count changes from 5 to 0. -/
theorem check_mutates_on_expired_window :
    (handleCheck (fun e => if e = "chat" then some ⟨5, 0, 60000⟩ else none)
        ("chat") 60000).1 ("chat") = some ⟨0, 60000, 60000⟩ ∧
    (fun e => if e = "chat" then some (⟨5, 0, 60000⟩ : RateLimitWindow) else none) ("chat")
      = some ⟨5, 0, 60000⟩ ∧
    (handleCheck (fun e => if e = "chat" then some ⟨5, 0, 60000⟩ else none)
        ("chat") 60000).1
      ≠ (fun e => if e = "chat" then some ⟨5, 0, 60000⟩ else none) := by
  refine ⟨by decide, by decide, fun h => ?_⟩
  exact (by decide :
    ¬ ((handleCheck (fun e => if e = "chat" then some ⟨5, 0, 60000⟩ else none)
        ("chat") 60000).1 ("chat")
      = (fun e => if e = "chat" then some (⟨5, 0, 60000⟩ : RateLimitWindow) else none) ("chat")))
    (congrFun h ("chat"))

/-- Claim C3 as amended: `Check` never increments. It leaves storage unchanged
when the endpoint is unconfigured, and when the stored window is live
(now < windowStart + windowDuration); when the window is absent or expired it
persists a fresh window `{count 0, windowStart now, windowDuration policy}` for
that endpoint — the only mutation, and the written count is always 0. -/
theorem check_frame_properties (st : LimitsStorage) (ep : String) (now : Nat) :
    (RATE_LIMIT_CONFIG ep = none → (handleCheck st ep now).1 = st) ∧
    (∀ cfg w, RATE_LIMIT_CONFIG ep = some cfg → st ep = some w →
      now < w.windowStart + w.windowDuration → (handleCheck st ep now).1 = st) ∧
    (∀ cfg, RATE_LIMIT_CONFIG ep = some cfg →
      (st ep = none ∨ ∃ w, st ep = some w ∧ now ≥ w.windowStart + w.windowDuration) →
      (handleCheck st ep now).1 = putW st ep ⟨0, now, cfg.windowSeconds * 1000⟩) := by
  refine ⟨fun hnone => ?_, fun cfg w hcfg hw hlive => ?_, fun cfg hcfg hdead => ?_⟩
  · unfold handleCheck checkLimit
    rw [hnone]
  · have hexp : windowExpired (st ep) now = false := by
      simp only [windowExpired, hw, decide_eq_false_iff_not]
      omega
    unfold handleCheck checkLimit
    rw [hcfg]
    simp only [hexp, Bool.false_eq_true, if_false]
    split <;> rfl
  · have hexp : windowExpired (st ep) now = true := by
      rcases hdead with h | ⟨w, hw, hge⟩
      · simp [windowExpired, h]
      · simp only [windowExpired, hw, decide_eq_true_eq]
        omega
    unfold handleCheck checkLimit
    rw [hcfg]
    simp only [hexp, if_true]
    split <;> rfl

/-- Witness for the amended C3: a live window (chat, t = 100 < 60000) is left
unchanged, and an expired window (t = 60000) is replaced by the fresh window. -/
theorem check_frame_properties_witness :
    (handleCheck (fun e => if e = "chat" then some ⟨5, 0, 60000⟩ else none)
        ("chat") 100).1 = (fun e => if e = "chat" then some ⟨5, 0, 60000⟩ else none) ∧
    (handleCheck (fun e => if e = "chat" then some ⟨5, 0, 60000⟩ else none)
        ("chat") 60000).1
      = putW (fun e => if e = "chat" then some ⟨5, 0, 60000⟩ else none)
          ("chat") ⟨0, 60000, 60 * 1000⟩ := by
  constructor
  · exact (check_frame_properties
      (fun e => if e = "chat" then some ⟨5, 0, 60000⟩ else none) ("chat") 100).2.1
      ⟨15, 60⟩ ⟨5, 0, 60000⟩ (by decide) (by decide) (by decide)
  · exact (check_frame_properties
      (fun e => if e = "chat" then some ⟨5, 0, 60000⟩ else none) ("chat") 60000).2.2
      ⟨15, 60⟩ (by decide) (Or.inr ⟨⟨5, 0, 60000⟩, by decide, by decide⟩)

lemma putW_same (st : LimitsStorage) (ep : String) (w : RateLimitWindow) :
    putW st ep w ep = some w := by
  simp [putW]

lemma putW_other (st : LimitsStorage) (ep e : String) (w : RateLimitWindow)
    (h : e ≠ ep) : putW st ep w e = st e := by
  simp [putW, h]

lemma putW_putW (st : LimitsStorage) (ep : String) (a b : RateLimitWindow) :
    putW (putW st ep a) ep b = putW st ep b := by
  funext e
  by_cases h : e = ep <;> simp [putW, h]

/-- The state after `checkLimit` is either unchanged or a persisted fresh
window for an expired/absent slot. -/
lemma checkLimit_fst (st : LimitsStorage) (ep : String) (now : Nat) :
    (checkLimit st ep now).1 = st ∨
    ∃ cfg, RATE_LIMIT_CONFIG ep = some cfg ∧ windowExpired (st ep) now = true ∧
      (checkLimit st ep now).1 = putW st ep ⟨0, now, cfg.windowSeconds * 1000⟩ := by
  unfold checkLimit
  cases hc : RATE_LIMIT_CONFIG ep with
  | none => left; rfl
  | some cfg =>
    cases hexp : windowExpired (st ep) now with
    | false =>
      left
      simp only [hexp, Bool.false_eq_true, if_false]
      split <;> rfl
    | true =>
      right
      refine ⟨cfg, rfl, rfl, ?_⟩
      simp only [hexp, if_true]
      split <;> rfl

/-- Any window stored by `checkLimit` over an existing entry has a
windowStart at least the old one. -/
lemma checkLimit_mono (st : LimitsStorage) (ep : String) (now : Nat)
    (e : String) (w : RateLimitWindow) (hw : st e = some w) :
    ∃ w', (checkLimit st ep now).1 e = some w' ∧ w.windowStart ≤ w'.windowStart := by
  rcases checkLimit_fst st ep now with h | ⟨cfg, _, hexp, h⟩
  · exact ⟨w, by rw [h, hw], le_rfl⟩
  · by_cases he : e = ep
    · subst he
      refine ⟨⟨0, now, cfg.windowSeconds * 1000⟩, by rw [h, putW_same], ?_⟩
      rw [hw] at hexp
      simp only [windowExpired, decide_eq_true_eq] at hexp
      show w.windowStart ≤ now
      omega
    · exact ⟨w, by rw [h, putW_other _ _ _ _ he, hw], le_rfl⟩

/-- Any window stored by `incrementCounter` over an existing entry has a
windowStart at least the old one. -/
lemma incrementCounter_mono (st : LimitsStorage) (ep : String) (now : Nat)
    (e : String) (w : RateLimitWindow) (hw : st e = some w) :
    ∃ w', incrementCounter st ep now e = some w' ∧ w.windowStart ≤ w'.windowStart := by
  unfold incrementCounter
  cases hc : RATE_LIMIT_CONFIG ep with
  | none => exact ⟨w, hw, le_rfl⟩
  | some cfg =>
    dsimp only
    by_cases he : e = ep
    · subst he
      cases hexp : windowExpired (st e) now with
      | false =>
        simp only [hexp, Bool.false_eq_true, if_false, hw, Option.getD_some]
        exact ⟨_, putW_same _ _ _, le_rfl⟩
      | true =>
        simp only [hexp, if_true]
        refine ⟨_, putW_same _ _ _, ?_⟩
        rw [hw] at hexp
        simp only [windowExpired, decide_eq_true_eq] at hexp
        show w.windowStart ≤ now
        omega
    · exact ⟨w, by rw [putW_other _ _ _ _ he, hw], le_rfl⟩

/-- windowStart is monotone across any single rate-limiter operation. -/
lemma rlStep_mono (st : LimitsStorage) (op : RLOp) (e : String)
    (w w' : RateLimitWindow) (hw : st e = some w) (hw' : rlStep st op e = some w') :
    w.windowStart ≤ w'.windowStart := by
  cases op with
  | check ep now =>
    obtain ⟨w1, h1, le1⟩ := checkLimit_mono st ep now e w hw
    rw [show rlStep st (.check ep now) = (checkLimit st ep now).1 from rfl] at hw'
    rw [hw'] at h1
    injection h1 with h1
    subst h1
    exact le1
  | checkAndIncrement ep t1 t2 t3 =>
    rw [show rlStep st (.checkAndIncrement ep t1 t2 t3)
        = (handleCheckAndIncrement st ep t1 t2 t3).1 from rfl] at hw'
    unfold handleCheckAndIncrement at hw'
    cases hA : (checkLimit st ep t1).2.allowed with
    | false =>
      simp only [hA, Bool.false_eq_true, if_false] at hw'
      obtain ⟨w1, h1, le1⟩ := checkLimit_mono st ep t1 e w hw
      rw [hw'] at h1
      injection h1 with h1
      subst h1
      exact le1
    | true =>
      simp only [hA, if_true] at hw'
      obtain ⟨w1, h1, le1⟩ := checkLimit_mono st ep t1 e w hw
      obtain ⟨w2, h2, le2⟩ := incrementCounter_mono _ ep t2 e w1 h1
      obtain ⟨w3, h3, le3⟩ := checkLimit_mono _ ep t3 e w2 h2
      rw [hw'] at h3
      injection h3 with h3
      subst h3
      omega
  | reset ep =>
    by_cases he : e = ep
    · subst he
      rw [show rlStep st (.reset e) = delW st e from rfl] at hw'
      simp [delW] at hw'
    · rw [show rlStep st (.reset ep) = delW st ep from rfl] at hw'
      rw [show delW st ep e = st e from by simp [delW, he]] at hw'
      rw [hw] at hw'
      injection hw' with h
      subst h
      exact le_rfl
  | resetAll =>
    simp [rlStep, handleResetAll] at hw'

lemma checkLimit_fst_dead (st : LimitsStorage) (ep : String) (cfg : RateLimitConfig)
    (now : Nat) (hcfg : RATE_LIMIT_CONFIG ep = some cfg)
    (hexp : windowExpired (st ep) now = true) :
    (checkLimit st ep now).1 = putW st ep ⟨0, now, cfg.windowSeconds * 1000⟩ := by
  unfold checkLimit
  rw [hcfg]
  dsimp only
  simp only [hexp, eq_self_iff_true, if_true]
  split <;> rfl

lemma checkLimit_fst_live (st : LimitsStorage) (ep : String) (cfg : RateLimitConfig)
    (now : Nat) (hcfg : RATE_LIMIT_CONFIG ep = some cfg)
    (hexp : windowExpired (st ep) now = false) :
    (checkLimit st ep now).1 = st := by
  unfold checkLimit
  rw [hcfg]
  dsimp only
  simp only [hexp, Bool.false_eq_true, if_false]
  split <;> rfl

lemma checkLimit_dead_eval (st : LimitsStorage) (ep : String) (cfg : RateLimitConfig)
    (now : Nat) (hcfg : RATE_LIMIT_CONFIG ep = some cfg)
    (hexp : windowExpired (st ep) now = true) (hmax : 0 < cfg.maxRequests) :
    checkLimit st ep now =
      (putW st ep ⟨0, now, cfg.windowSeconds * 1000⟩,
       { allowed := true, limit := cfg.maxRequests, remaining := cfg.maxRequests,
         resetAt := now + cfg.windowSeconds * 1000, retryAfter := 0 }) := by
  unfold checkLimit
  rw [hcfg]
  dsimp only
  simp only [hexp, eq_self_iff_true, if_true]
  rw [if_neg (by simp; omega)]
  simp

lemma checkLimit_live_allow_eval (st : LimitsStorage) (ep : String)
    (cfg : RateLimitConfig) (w : RateLimitWindow) (now : Nat)
    (hcfg : RATE_LIMIT_CONFIG ep = some cfg) (hw : st ep = some w)
    (hlive : now < w.windowStart + w.windowDuration)
    (hcnt : w.count < cfg.maxRequests) :
    checkLimit st ep now =
      (st, { allowed := true, limit := cfg.maxRequests,
             remaining := cfg.maxRequests - w.count,
             resetAt := w.windowStart + w.windowDuration, retryAfter := 0 }) := by
  have hexp : windowExpired (some w) now = false := by
    simp only [windowExpired, decide_eq_false_iff_not]
    omega
  unfold checkLimit
  rw [hcfg]
  dsimp only
  simp only [hw, hexp, Bool.false_eq_true, if_false, Option.getD_some]
  rw [if_neg (by omega)]

lemma checkLimit_live_deny_eval (st : LimitsStorage) (ep : String)
    (cfg : RateLimitConfig) (w : RateLimitWindow) (now : Nat)
    (hcfg : RATE_LIMIT_CONFIG ep = some cfg) (hw : st ep = some w)
    (hlive : now < w.windowStart + w.windowDuration)
    (hcnt : w.count ≥ cfg.maxRequests) :
    checkLimit st ep now =
      (st, { allowed := false, limit := cfg.maxRequests, remaining := 0,
             resetAt := w.windowStart + w.windowDuration,
             retryAfter := max 0 ((w.windowStart + w.windowDuration - now + 999) / 1000) }) := by
  have hexp : windowExpired (some w) now = false := by
    simp only [windowExpired, decide_eq_false_iff_not]
    omega
  unfold checkLimit
  rw [hcfg]
  dsimp only
  simp only [hw, hexp, Bool.false_eq_true, if_false, Option.getD_some]
  rw [if_pos hcnt]

lemma incrementCounter_live_eval (st : LimitsStorage) (ep : String)
    (cfg : RateLimitConfig) (w : RateLimitWindow) (now : Nat)
    (hcfg : RATE_LIMIT_CONFIG ep = some cfg) (hw : st ep = some w)
    (hlive : now < w.windowStart + w.windowDuration) :
    incrementCounter st ep now =
      putW st ep ⟨w.count + 1, w.windowStart, w.windowDuration⟩ := by
  have hexp : windowExpired (some w) now = false := by
    simp only [windowExpired, decide_eq_false_iff_not]
    omega
  unfold incrementCounter
  rw [hcfg]
  dsimp only
  simp only [hw, hexp, Bool.false_eq_true, if_false, Option.getD_some]

/-- Claim C9: (a) for every operation (Check, CheckAndIncrement, Reset,
ResetAll) and every endpoint entry, any window stored over a previous one has
a windowStart that is ≥ the previously stored windowStart; (b) `Check`
replaces the window by a fresh `{count 0, windowStart now}` exactly when it
observes `now ≥ windowStart + windowDuration`, otherwise it leaves the state
unchanged; (c) `CheckAndIncrement` (a single observation time `now`) restarts
the count from 0 (persisting count 1 after its increment, windowStart now)
exactly when it observes expiry; on a live window it either leaves the state
unchanged (denied) or increments the count in place preserving windowStart. -/
theorem rateLimiter_window_invariants (st : LimitsStorage) (ep : String)
    (cfg : RateLimitConfig) (w : RateLimitWindow) (now : Nat) :
    (∀ op : RLOp, ∀ e w₀ w₁, st e = some w₀ → rlStep st op e = some w₁ →
      w₀.windowStart ≤ w₁.windowStart) ∧
    (RATE_LIMIT_CONFIG ep = some cfg → st ep = some w →
      ((now ≥ w.windowStart + w.windowDuration →
         (handleCheck st ep now).1 = putW st ep ⟨0, now, cfg.windowSeconds * 1000⟩) ∧
       (now < w.windowStart + w.windowDuration → (handleCheck st ep now).1 = st))) ∧
    (RATE_LIMIT_CONFIG ep = some cfg → st ep = some w →
      0 < cfg.maxRequests → 0 < cfg.windowSeconds →
      ((now ≥ w.windowStart + w.windowDuration →
         (handleCheckAndIncrement st ep now now now).1
           = putW st ep ⟨1, now, cfg.windowSeconds * 1000⟩) ∧
       (now < w.windowStart + w.windowDuration → w.count ≥ cfg.maxRequests →
         (handleCheckAndIncrement st ep now now now).1 = st) ∧
       (now < w.windowStart + w.windowDuration → w.count < cfg.maxRequests →
         (handleCheckAndIncrement st ep now now now).1
           = putW st ep ⟨w.count + 1, w.windowStart, w.windowDuration⟩))) := by
  refine ⟨fun op e w₀ w₁ h h' => rlStep_mono st op e w₀ w₁ h h',
          fun hcfg hw => ⟨fun hge => ?_, fun hlt => ?_⟩,
          fun hcfg hw hmax hws => ⟨fun hge => ?_, fun hlt hfull => ?_, fun hlt hcnt => ?_⟩⟩
  · exact checkLimit_fst_dead st ep cfg now hcfg
      (by simp only [windowExpired, hw, decide_eq_true_eq]; omega)
  · exact checkLimit_fst_live st ep cfg now hcfg
      (by simp only [windowExpired, hw, decide_eq_false_iff_not]; omega)
  · have hdur : 0 < cfg.windowSeconds * 1000 := by omega
    have h1 := checkLimit_dead_eval st ep cfg now hcfg
      (by simp only [windowExpired, hw, decide_eq_true_eq]; omega) hmax
    unfold handleCheckAndIncrement
    rw [h1]
    dsimp only
    have h2 : incrementCounter (putW st ep ⟨0, now, cfg.windowSeconds * 1000⟩) ep now
        = putW st ep ⟨1, now, cfg.windowSeconds * 1000⟩ := by
      rw [incrementCounter_live_eval _ ep cfg ⟨0, now, cfg.windowSeconds * 1000⟩ now hcfg
        (putW_same _ _ _) (by dsimp only; omega)]
      exact putW_putW st ep _ _
    rw [h2]
    exact checkLimit_fst_live _ ep cfg now hcfg
      (by simp only [windowExpired, putW_same, decide_eq_false_iff_not]; omega)
  · have h1 := checkLimit_live_deny_eval st ep cfg w now hcfg hw hlt hfull
    unfold handleCheckAndIncrement
    rw [h1]
    simp
  · have h1 := checkLimit_live_allow_eval st ep cfg w now hcfg hw hlt hcnt
    unfold handleCheckAndIncrement
    rw [h1]
    dsimp only
    rw [incrementCounter_live_eval st ep cfg w now hcfg hw hlt]
    exact checkLimit_fst_live _ ep cfg now hcfg
      (by simp only [windowExpired, putW_same, decide_eq_false_iff_not]; omega)

/-- Witness for C9: concrete instantiation — endpoint chat, stored window
`{count 5, windowStart 0, windowDuration 60000}`, `now = 100`. -/
theorem rateLimiter_window_invariants_witness :
    (∀ op : RLOp, ∀ e w₀ w₁,
      (fun x => if x = "chat" then some ⟨5, 0, 60000⟩ else none : LimitsStorage) e = some w₀ →
      rlStep (fun x => if x = "chat" then some ⟨5, 0, 60000⟩ else none) op e = some w₁ →
      w₀.windowStart ≤ w₁.windowStart) ∧
    (handleCheckAndIncrement (fun x => if x = "chat" then some ⟨5, 0, 60000⟩ else none)
        ("chat") 100 100 100).1
      = putW (fun x => if x = "chat" then some ⟨5, 0, 60000⟩ else none) ("chat") ⟨6, 0, 60000⟩ := by
  have h := rateLimiter_window_invariants
    (fun x => if x = "chat" then some ⟨5, 0, 60000⟩ else none) ("chat") ⟨15, 60⟩ ⟨5, 0, 60000⟩ 100
  exact ⟨h.1, (h.2.2 (by decide) (by decide) (by decide) (by decide)).2.2 (by decide) (by decide)⟩

/-! ## Lecture memory actor (src/worker-backend/src/LectureMemory.ts) -/

/-- Message roles (`'user' | 'assistant'`, LectureMemory.ts line 6). -/
inductive Role
  | user
  | assistant
deriving DecidableEq, Repr

/-- The wire role string used when mapping history to the model input. -/
def Role.toStr : Role → String
  | .user => "user"
  | .assistant => "assistant"

/-- `interface ChatMessage` (LectureMemory.ts lines 5-9). -/
structure ChatMessage where
  role : Role
  content : String
  timestamp : Nat
deriving DecidableEq, Repr

/-- An entry of the `messages` array passed to `env.AI.run`
(LectureMemory.ts lines 60-69). -/
structure PromptMsg where
  role : String
  content : String
deriving DecidableEq, Repr

/-- The fixed grounding system prompt (LectureMemory.ts line 57). -/
def chatSystemPrompt : String :=
  "You are LectureLens, an AI-powered study assistant. Your goal is to answer question strictly based on the provided conversation history and lecture context. Respond concisely and helpfully."

/-- Model input construction (LectureMemory.ts lines 60-69): the system prompt
followed by the entire history, in order, mapped to `{role, content}`. -/
def chatPrompt (messages : List ChatMessage) : List PromptMsg :=
  ⟨"system", chatSystemPrompt⟩ :: messages.map (fun m => ⟨m.role.toStr, m.content⟩)

/-- Result of one `/chat` operation: the sequence of histories persisted by
`storage.put` (in order), the final in-memory history, the model input that
was sent to the inference collaborator, and the call outcome. -/
structure ChatResult where
  writes : List (List ChatMessage)
  finalMessages : List ChatMessage
  prompt : List PromptMsg
  result : Except String String
deriving Repr

/-- The `/chat` handler (LectureMemory.ts lines 33-104). `stored` is the
history under 'chat_history' (`none` when the key is absent; the code
substitutes `{messages: []}`), `t1`/`t2` are the two `Date.now()` reads, and
`ai` is the inference collaborator (`env.AI.run`), which may fail
(`Except.error` models a thrown error, caught at line 94). -/
def chatOp (stored : Option (List ChatMessage)) (message : String) (t1 t2 : Nat)
    (ai : List PromptMsg → Except String String) : ChatResult :=
  let history0 := stored.getD []
  let userMessage : ChatMessage := ⟨.user, message, t1⟩
  let history1 := history0 ++ [userMessage]
  let messages := chatPrompt history1
  match ai messages with
  | .error e => ⟨[history1], history1, messages, .error e⟩
  | .ok response =>
    let assistantMessage : ChatMessage := ⟨.assistant, response, t2⟩
    let history2 := history1 ++ [assistantMessage]
    ⟨[history1, history2], history2, messages, .ok response⟩

/-- Durable state of one LectureMemory instance: 'raw_lecture_text' and
'chat_history' storage keys. -/
structure LMState where
  rawText : Option String
  chatHistory : Option (List ChatMessage)
deriving DecidableEq

/-- A request to `LectureMemory.fetch`, with the JSON payloads already
parsed (`message` for `/chat`, `lectureText` for `/lecture`; `none` models a
missing property, which is falsy like the empty string). -/
structure LMRequest where
  path : String
  method : String
  message : String
  lectureText : Option String
deriving DecidableEq

/-- Outcomes of `LectureMemory.fetch`. -/
inductive LMResponse
  | chatOk (response : String)
  | chatError (details : String)
  | lectureStored
  | lectureBadRequest
  | fallback
deriving DecidableEq, Repr

/-- `LectureMemory.fetch` (LectureMemory.ts lines 28-142): routes
`POST /chat` and `POST /lecture`; everything else falls through to the final
fallback response (line 141), a 200 with the fixed text
'LectureMemory DO is active, but no action matched.'. -/
def lectureMemoryFetch (st : LMState) (req : LMRequest) (t1 t2 : Nat)
    (ai : List PromptMsg → Except String String) : LMState × LMResponse :=
  if req.path = "/chat" ∧ req.method = "POST" then
    let r := chatOp st.chatHistory req.message t1 t2 ai
    match r.result with
    | .ok resp => ({ st with chatHistory := some r.finalMessages }, .chatOk resp)
    | .error e => ({ st with chatHistory := some r.finalMessages }, .chatError e)
  else if req.path = "/lecture" ∧ req.method = "POST" then
    match req.lectureText with
    | some t => if t = "" then (st, .lectureBadRequest)
                else ({ st with rawText := some t }, .lectureStored)
    | none => (st, .lectureBadRequest)
  else (st, .fallback)

/-- Claim C2 (status: code_bug). The spec promises a `GetRawText` operation
returning the stored raw text, or a not-found error when uninitialized. The
LectureMemory actor has no such route: a request for `/raw-lecture-text`
(which index.ts line 583 issues) matches neither `/chat` nor `/lecture` and
always receives the generic 200 fallback response, with the state unchanged —
regardless of whether the lecture text is initialized. Neither of the two
specified outcomes can occur. -/
theorem lectureMemory_raw_text_route_missing (st : LMState) (method : String)
    (message : String) (lectureText : Option String) (t1 t2 : Nat)
    (ai : List PromptMsg → Except String String) :
    lectureMemoryFetch st ⟨"/raw-lecture-text", method, message, lectureText⟩ t1 t2 ai
      = (st, .fallback) := by
  unfold lectureMemoryFetch
  rw [if_neg (by simp), if_neg (by simp)]

lemma chatOp_prompt (stored : Option (List ChatMessage)) (message : String)
    (t1 t2 : Nat) (ai : List PromptMsg → Except String String) :
    (chatOp stored message t1 t2 ai).prompt
      = chatPrompt (stored.getD [] ++ [⟨.user, message, t1⟩]) := by
  cases hai : ai (chatPrompt (stored.getD [] ++ [⟨.user, message, t1⟩])) <;>
    simp [chatOp, hai]

lemma chatOp_ok_finalMessages (stored : Option (List ChatMessage))
    (message : String) (t1 t2 : Nat) (ai : List PromptMsg → Except String String)
    (resp : String) (h : (chatOp stored message t1 t2 ai).result = .ok resp) :
    (chatOp stored message t1 t2 ai).finalMessages
      = stored.getD [] ++ [⟨.user, message, t1⟩, ⟨.assistant, resp, t2⟩] := by
  cases hai : ai (chatPrompt (stored.getD [] ++ [⟨.user, message, t1⟩])) with
  | error e => simp [chatOp, hai] at h
  | ok r =>
    have hr : r = resp := by
      simp [chatOp, hai] at h
      exact h
    subst hr
    simp [chatOp, hai]

/-- Claim C4: `Chat` appends the user message `{user, content, t1}` and
persists it as its first write, builds the model input from that persisted
history, and then: on inference failure returns the error with exactly that
one write — the history retains the user message and grew by exactly one
(no rollback); on success performs exactly two writes, the second appending
the assistant message, so exactly two messages (user then assistant) were
appended. -/
theorem chat_persists_user_message (stored : Option (List ChatMessage))
    (message : String) (t1 t2 : Nat) (ai : List PromptMsg → Except String String) :
    (chatOp stored message t1 t2 ai).writes.head?
        = some (stored.getD [] ++ [⟨.user, message, t1⟩]) ∧
    (chatOp stored message t1 t2 ai).prompt
        = chatPrompt (stored.getD [] ++ [⟨.user, message, t1⟩]) ∧
    (∀ e, ai (chatPrompt (stored.getD [] ++ [⟨.user, message, t1⟩])) = .error e →
      (chatOp stored message t1 t2 ai).result = .error e ∧
      (chatOp stored message t1 t2 ai).writes
          = [stored.getD [] ++ [⟨.user, message, t1⟩]] ∧
      (chatOp stored message t1 t2 ai).finalMessages
          = stored.getD [] ++ [⟨.user, message, t1⟩] ∧
      (chatOp stored message t1 t2 ai).finalMessages.length
          = (stored.getD []).length + 1) ∧
    (∀ resp, ai (chatPrompt (stored.getD [] ++ [⟨.user, message, t1⟩])) = .ok resp →
      (chatOp stored message t1 t2 ai).result = .ok resp ∧
      (chatOp stored message t1 t2 ai).finalMessages
          = stored.getD [] ++ [⟨.user, message, t1⟩, ⟨.assistant, resp, t2⟩] ∧
      (chatOp stored message t1 t2 ai).writes
          = [stored.getD [] ++ [⟨.user, message, t1⟩],
             stored.getD [] ++ [⟨.user, message, t1⟩, ⟨.assistant, resp, t2⟩]]) := by
  refine ⟨?_, chatOp_prompt stored message t1 t2 ai, fun e he => ?_, fun resp hr => ?_⟩
  · cases hai : ai (chatPrompt (stored.getD [] ++ [⟨.user, message, t1⟩])) <;>
      simp [chatOp, hai]
  · simp [chatOp, he]
  · simp [chatOp, hr]

/-- Witness for C4: failing inference leaves exactly the user message
appended; successful inference appends user then assistant. -/
theorem chat_persists_user_message_witness :
    (chatOp none ("hi") 1 2 (fun _ => .error ("boom"))).writes
        = [[⟨.user, "hi", 1⟩]] ∧
    (chatOp none ("hi") 1 2 (fun _ => .error ("boom"))).result = .error ("boom") ∧
    (chatOp none ("hi") 1 2 (fun _ => .ok ("yo"))).finalMessages
        = [⟨.user, "hi", 1⟩, ⟨.assistant, "yo", 2⟩] := by
  refine ⟨?_, ?_, ?_⟩
  · exact ((chat_persists_user_message none ("hi") 1 2
      (fun _ => .error ("boom"))).2.2.1 ("boom") rfl).2.1
  · exact ((chat_persists_user_message none ("hi") 1 2
      (fun _ => .error ("boom"))).2.2.1 ("boom") rfl).1
  · exact ((chat_persists_user_message none ("hi") 1 2
      (fun _ => .ok ("yo"))).2.2.2 ("yo") rfl).2.1

/-- Claim C7: every `Chat` call sends the fixed grounding system instruction
followed by the entire stored history (with the just-appended user message)
in order; hence after a successful first call, the second call's model input
contains both the first call's user message and its assistant reply. -/
theorem chat_prompt_includes_full_history (stored : Option (List ChatMessage))
    (m1 m2 : String) (t1 t2 t3 t4 : Nat) (resp : String)
    (ai1 ai2 : List PromptMsg → Except String String)
    (h1 : (chatOp stored m1 t1 t2 ai1).result = .ok resp) :
    (chatOp (some (chatOp stored m1 t1 t2 ai1).finalMessages) m2 t3 t4 ai2).prompt
      = (⟨"system", chatSystemPrompt⟩ : PromptMsg) ::
        ((chatOp stored m1 t1 t2 ai1).finalMessages
            ++ ([⟨.user, m2, t3⟩] : List ChatMessage)).map
          (fun m : ChatMessage => (⟨m.role.toStr, m.content⟩ : PromptMsg)) ∧
    (⟨"user", m1⟩ : PromptMsg)
      ∈ (chatOp (some (chatOp stored m1 t1 t2 ai1).finalMessages) m2 t3 t4 ai2).prompt ∧
    (⟨"assistant", resp⟩ : PromptMsg)
      ∈ (chatOp (some (chatOp stored m1 t1 t2 ai1).finalMessages) m2 t3 t4 ai2).prompt := by
  have hfin : (chatOp stored m1 t1 t2 ai1).finalMessages
      = stored.getD [] ++ [⟨.user, m1, t1⟩, ⟨.assistant, resp, t2⟩] :=
    chatOp_ok_finalMessages stored m1 t1 t2 ai1 resp h1
  have hpr : (chatOp (some (chatOp stored m1 t1 t2 ai1).finalMessages) m2 t3 t4 ai2).prompt
      = chatPrompt ((chatOp stored m1 t1 t2 ai1).finalMessages ++ [⟨.user, m2, t3⟩]) := by
    rw [chatOp_prompt]
    simp
  refine ⟨hpr.trans rfl, ?_, ?_⟩
  · rw [hpr, hfin]
    unfold chatPrompt
    refine List.mem_cons_of_mem _ ?_
    refine List.mem_map.2 ⟨(⟨.user, m1, t1⟩ : ChatMessage), ?_, rfl⟩
    simp
  · rw [hpr, hfin]
    unfold chatPrompt
    refine List.mem_cons_of_mem _ ?_
    refine List.mem_map.2 ⟨(⟨.assistant, resp, t2⟩ : ChatMessage), ?_, rfl⟩
    simp

/-- Witness for C7: two concrete sequential chats; the second prompt contains
the first user message and the first assistant reply. -/
theorem chat_prompt_includes_full_history_witness :
    (⟨"user", "q1"⟩ : PromptMsg)
      ∈ (chatOp (some (chatOp none ("q1") 1 2 (fun _ => .ok ("a1"))).finalMessages)
          ("q2") 3 4 (fun _ => .ok ("a2"))).prompt ∧
    (⟨"assistant", "a1"⟩ : PromptMsg)
      ∈ (chatOp (some (chatOp none ("q1") 1 2 (fun _ => .ok ("a1"))).finalMessages)
          ("q2") 3 4 (fun _ => .ok ("a2"))).prompt := by
  have h := chat_prompt_includes_full_history none ("q1") ("q2") 1 2 3 4 ("a1")
    (fun _ => .ok ("a1")) (fun _ => .ok ("a2")) rfl
  exact ⟨h.2.1, h.2.2⟩

/-! ## Chunked summarization / extraction pipeline
(src/worker-backend/src/index.ts lines 260-334 and 602-673) -/

/-- JS regex `\s` whitespace, ASCII part: space, tab, LF, VT, FF, CR. The
same class backs both `split(/\s+/)` and `trim()` in the model. -/
def isWS (c : Char) : Bool :=
  c == ' ' || c == '\t' || c == '\n' || c == '\r' || c == '\x0b' || c == '\x0c'

/-- `text.split(/\s+/)` (index.ts lines 283 and 624) on `List Char`: splits at
maximal nonempty whitespace runs; a leading (trailing) run contributes a
leading (trailing) empty segment; the empty input yields `[[]]`. -/
def splitWs : List Char → List (List Char)
  | [] => [[]]
  | c :: rest =>
    if isWS c then
      match rest with
      | [] => [[], []]
      | d :: _ => if isWS d then [] :: (splitWs rest).tail else [] :: splitWs rest
    else
      match splitWs rest with
      | [] => [[c]]
      | t :: ts => (c :: t) :: ts

/-- What follows a whitespace character in `splitWs`:
`isWS c = true → splitWs (c :: x) = [] :: splitTail x`. -/
def splitTail (x : List Char) : List (List Char) :=
  match x with
  | [] => [[]]
  | d :: _ => if isWS d then (splitWs x).tail else splitWs x

/-- JS `String.prototype.trim` on `List Char`. -/
def trim (s : List Char) : List Char :=
  ((s.dropWhile isWS).reverse.dropWhile isWS).reverse

/-- The greedy chunking loop (index.ts lines 286-296 / 627-637): while
`(currentChunk + ' ' + word).length > C` push `currentChunk.trim()` and
restart from `word`, else append `' ' + word`; finally push the trimmed
remainder if it is nonempty (truthy). -/
def chunksGo (C : Nat) (cur : List Char) : List (List Char) → List (List Char)
  | [] => if trim cur = [] then [] else [trim cur]
  | w :: rest =>
    if (cur ++ ' ' :: w).length > C then
      trim cur :: chunksGo C w rest
    else
      chunksGo C (cur ++ ' ' :: w) rest

/-- The chunk list produced for a text: the loop over `text.split(/\s+/)`
starting from the empty `currentChunk`. -/
def chunkText (C : Nat) (text : List Char) : List (List Char) :=
  chunksGo C [] (splitWs text)

/-- The whitespace-normalized token sequence of a text: the nonempty
segments of `splitWs`. -/
def tokens (s : List Char) : List (List Char) :=
  (splitWs s).filter (fun t => !t.isEmpty)

/-- Joining chunks with single spaces. -/
def joinSp : List (List Char) → List Char
  | [] => []
  | [x] => x
  | x :: xs => x ++ ' ' :: joinSp xs

/-- The indexed for-loop over chunks (`for (let i = 0; ...)`). -/
def mapIdxFrom {α β : Type} (f : Nat → α → β) : Nat → List α → List β
  | _, [] => []
  | i, a :: as => f i a :: mapIdxFrom f (i + 1) as

/-- The two pipeline modes; they differ only in prompt wording. -/
inductive PipeMode
  | summarize
  | extract
deriving DecidableEq, Repr

/-- One call to `env.AI.run` (model messages flattened to the system and user
prompts, plus `max_tokens`). -/
structure AICall where
  systemPrompt : String
  userPrompt : String
  maxTokens : Nat
deriving DecidableEq, Repr

/-- Short-document system prompts (index.ts lines 268 and 609). -/
def directSystemPrompt : PipeMode → String
  | .summarize => "You are a helpful study assistant. Summarize the following lecture transcript into clear, structured key points. Use Markdown formatting for readability. Be thorough and cover ALL major topics discussed in the lecture."
  | .extract => "You are a specialized academic assistant. Analyze the following lecture text and extract all key definitions, mathematical formulas, and core theoretical concepts. Format the output clearly using Markdown with bold terms and bullet points. Be thorough and cover ALL concepts in the text."

/-- Short-document user prompts (index.ts lines 269 and 610). -/
def directUserPrompt : PipeMode → String → String
  | .summarize, text => "Lecture Transcript:\n\n" ++ text
  | .extract, text => "Lecture Text:\n\n" ++ text

/-- Per-chunk system prompts, "(part i+1 of n)" (index.ts lines 303 and 643). -/
def chunkSystemPromptStr : PipeMode → Nat → Nat → String
  | .summarize, i, n => "You are a helpful study assistant. Summarize the following section (part " ++ toString (i + 1) ++ " of " ++ toString n ++ ") of a lecture transcript into clear, structured key points. Use Markdown formatting. Be thorough and cover all topics in this section."
  | .extract, i, n => "You are a specialized academic assistant. Analyze the following section (part " ++ toString (i + 1) ++ " of " ++ toString n ++ ") of a lecture and extract all key definitions, mathematical formulas, and core theoretical concepts. Format the output clearly using Markdown with bold terms and bullet points."

/-- Per-chunk user prompt (index.ts lines 304 and 644; identical wording in
both handlers). -/
def chunkUserPromptStr (chunk : String) : String :=
  "Lecture Section:\n\n" ++ chunk

/-- Combine-step system prompts (index.ts lines 319 and 658). -/
def combineSystemPrompt : PipeMode → String
  | .summarize => "You are a helpful study assistant. You are given summaries of different sections of a lecture. Combine them into one cohesive, well-organized summary with clear key points. Use Markdown formatting with headings and bullet points. Remove any redundancy but keep all unique information."
  | .extract => "You are a specialized academic assistant. You are given concept extractions from different sections of a lecture. Combine them into one cohesive, well-organized list of all key definitions, formulas, and core concepts. Use Markdown formatting with bold terms and bullet points. Remove duplicates but keep all unique concepts."

/-- Combine-step user prompt (index.ts lines 320 and 659): the partial
outputs, each under a "--- Section i+1 ---" header, joined by blank lines. -/
def combineUserPrompt (mode : PipeMode) (partials : List String) : String :=
  (match mode with
   | .summarize => "Section Summaries:\n\n"
   | .extract => "Section Extractions:\n\n")
  ++ String.intercalate "\n\n"
      (mapIdxFrom (fun i s => "--- Section " ++ toString (i + 1) ++ " ---\n" ++ s) 0 partials)

/-- The short-document call (index.ts lines 266-279 / 607-620). -/
def directCall (mode : PipeMode) (text : String) : AICall :=
  ⟨directSystemPrompt mode, directUserPrompt mode text, 4096⟩

/-- `chunks` of the long-document path, as strings. -/
def pipelineChunks (C : Nat) (text : String) : List String :=
  (chunkText C text.toList).map String.mk

/-- The per-chunk calls, in original chunk order (index.ts lines 302-315 /
642-655). -/
def pipelineChunkCalls (C : Nat) (mode : PipeMode) (text : String) : List AICall :=
  mapIdxFrom
    (fun i ch => ⟨chunkSystemPromptStr mode i (pipelineChunks C text).length,
                  chunkUserPromptStr ch, 2048⟩)
    0 (pipelineChunks C text)

/-- The final combine call over the partial outputs in order (index.ts
lines 318-330 / 657-669). -/
def pipelineCombineCall (C : Nat) (mode : PipeMode) (ai : AICall → String)
    (text : String) : AICall :=
  ⟨combineSystemPrompt mode,
   combineUserPrompt mode ((pipelineChunkCalls C mode text).map ai), 4096⟩

/-- The summarize/extract pipeline (index.ts lines 260-334 / 602-673),
parameterized by the budget `C` (the code instantiates
`MAX_CHARS_PER_CHUNK = 12000`). Returns the produced output (`none` models
the JS `undefined` of `chunkSummaries[0]` on an empty chunk list) and the
inference calls issued, in order. -/
def pipelineC (C : Nat) (mode : PipeMode) (ai : AICall → String) (text : String) :
    Option String × List AICall :=
  if text.length ≤ C then
    (some (ai (directCall mode text)), [directCall mode text])
  else
    let chunkSummaries := (pipelineChunkCalls C mode text).map ai
    if 1 < chunkSummaries.length then
      (some (ai (pipelineCombineCall C mode ai text)),
       pipelineChunkCalls C mode text ++ [pipelineCombineCall C mode ai text])
    else
      (chunkSummaries.head?, pipelineChunkCalls C mode text)

/-- `const MAX_CHARS_PER_CHUNK = 12000` (index.ts lines 263 and 604). -/
def MAX_CHARS_PER_CHUNK : Nat := 12000

lemma splitWs_ne_nil (s : List Char) : splitWs s ≠ [] := by
  cases s with
  | nil => simp [splitWs]
  | cons c rest =>
    unfold splitWs
    cases hc : isWS c with
    | true =>
      simp only [if_true]
      cases rest with
      | nil => simp
      | cons d r => cases hd : isWS d <;> simp [hd]
    | false =>
      simp only [Bool.false_eq_true, if_false]
      cases hsp : splitWs rest <;> simp

lemma splitWs_ws_cons (c : Char) (x : List Char) (h : isWS c = true) :
    splitWs (c :: x) = [] :: splitTail x := by
  unfold splitWs splitTail
  cases x with
  | nil => simp [h]
  | cons d r => cases hd : isWS d <;> simp [h, hd]

lemma splitWs_not_ws_cons (c : Char) (x : List Char) (h : isWS c = false) :
    splitWs (c :: x) = (c :: (splitWs x).headI) :: (splitWs x).tail := by
  obtain ⟨t, ts, hsp⟩ := List.exists_cons_of_ne_nil (splitWs_ne_nil x)
  have step : splitWs (c :: x)
      = match splitWs x with
        | [] => [[c]]
        | t :: ts => (c :: t) :: ts := by
    conv_lhs => rw [splitWs.eq_def]
    simp [h]
  rw [step, hsp]
  simp [List.headI]

lemma filterNE_splitTail (x : List Char) :
    (splitTail x).filter (fun t => !t.isEmpty) = tokens x := by
  unfold splitTail tokens
  cases x with
  | nil => simp [splitWs]
  | cons d r =>
    cases hd : isWS d with
    | false => simp [hd]
    | true =>
      rw [splitWs_ws_cons d r hd]
      simp [hd]

lemma tokens_ws_cons (c : Char) (x : List Char) (h : isWS c = true) :
    tokens (c :: x) = tokens x := by
  unfold tokens
  rw [splitWs_ws_cons c x h]
  rw [List.filter_cons]
  simp only [List.isEmpty_nil, Bool.not_true, Bool.false_eq_true, if_false]
  exact filterNE_splitTail x

lemma tokens_nil : tokens ([] : List Char) = [] := by
  simp [tokens, splitWs]

lemma tokens_allWS (s : List Char) (h : ∀ c ∈ s, isWS c = true) : tokens s = [] := by
  induction s with
  | nil => exact tokens_nil
  | cons c r ih =>
    rw [tokens_ws_cons c r (h c (by simp))]
    exact ih (fun d hd => h d (by simp [hd]))

lemma splitWs_no_ws (s : List Char) (h : ∀ c ∈ s, isWS c = false) :
    splitWs s = [s] := by
  induction s with
  | nil => simp [splitWs]
  | cons c r ih =>
    rw [splitWs_not_ws_cons c r (h c (by simp))]
    rw [ih (fun d hd => h d (by simp [hd]))]
    simp [List.headI]

lemma tokens_no_ws (s : List Char) (h : ∀ c ∈ s, isWS c = false) :
    tokens s = if s.isEmpty then [] else [s] := by
  unfold tokens
  rw [splitWs_no_ws s h]
  cases s <;> simp

lemma splitWs_mem_no_ws (s : List Char) :
    ∀ t ∈ splitWs s, ∀ c ∈ t, isWS c = false := by
  induction s with
  | nil =>
    intro t ht c hc
    simp [splitWs] at ht
    subst ht
    simp at hc
  | cons a rest ih =>
    intro t ht c hc
    cases ha : isWS a with
    | true =>
      rw [splitWs_ws_cons a rest ha] at ht
      rcases List.mem_cons.1 ht with h | h
      · subst h; simp at hc
      · unfold splitTail at h
        cases rest with
        | nil =>
          simp at h
          subst h; simp at hc
        | cons d r =>
          cases hd : isWS d with
          | true =>
            simp only [hd, if_true] at h
            exact ih t (List.tail_subset _ h) c hc
          | false =>
            simp only [hd, Bool.false_eq_true, if_false] at h
            exact ih t h c hc
    | false =>
      rw [splitWs_not_ws_cons a rest ha] at ht
      rcases List.mem_cons.1 ht with h | h
      · subst h
        rcases List.mem_cons.1 hc with h | h
        · subst h; exact ha
        · refine ih (splitWs rest).headI ?_ c h
          obtain ⟨t0, ts0, hts⟩ := List.exists_cons_of_ne_nil (splitWs_ne_nil rest)
          rw [hts]
          simp [List.headI]
      · refine ih t ?_ c hc
        exact List.tail_subset _ h

lemma tokens_eq_head_tail (x : List Char) :
    tokens x = (if ((splitWs x).headI).isEmpty then [] else [(splitWs x).headI])
      ++ ((splitWs x).tail).filter (fun t => !t.isEmpty) := by
  obtain ⟨t, ts, hsp⟩ := List.exists_cons_of_ne_nil (splitWs_ne_nil x)
  unfold tokens
  rw [hsp]
  simp only [List.headI, List.tail]
  rw [List.filter_cons]
  cases ht : t.isEmpty <;> simp [ht]

lemma tokens_allws_append (s' b : List Char) (h : ∀ c ∈ s', isWS c = true) :
    tokens (s' ++ b) = tokens b := by
  induction s' with
  | nil => rfl
  | cons c r ih =>
    rw [List.cons_append, tokens_ws_cons c (r ++ b) (h c (by simp))]
    exact ih (fun d hd => h d (by simp [hd]))

lemma splitWs_append_sep (a : List Char) :
    ∀ (s b : List Char), (∀ c ∈ s, isWS c = true) → s ≠ [] →
      (splitWs (a ++ s ++ b)).headI = (splitWs a).headI ∧
      ((splitWs (a ++ s ++ b)).tail).filter (fun t => !t.isEmpty)
        = ((splitWs a).tail).filter (fun t => !t.isEmpty) ++ tokens b := by
  induction a with
  | nil =>
    intro s b hs hne
    obtain ⟨cs, s', rfl⟩ := List.exists_cons_of_ne_nil hne
    have hcs : isWS cs = true := hs cs (by simp)
    rw [List.nil_append, List.cons_append, splitWs_ws_cons cs (s' ++ b) hcs]
    constructor
    · simp [splitWs, List.headI]
    · simp only [List.tail]
      rw [filterNE_splitTail]
      rw [tokens_allws_append s' b (fun d hd => hs d (by simp [hd]))]
      simp [splitWs]
  | cons c a' ih =>
    intro s b hs hne
    have key : tokens (a' ++ s ++ b) = tokens a' ++ tokens b := by
      rw [tokens_eq_head_tail (a' ++ s ++ b), tokens_eq_head_tail a']
      rw [(ih s b hs hne).1, (ih s b hs hne).2]
      simp [List.append_assoc]
    cases hc : isWS c with
    | true =>
      rw [List.cons_append, List.cons_append, splitWs_ws_cons c (a' ++ s ++ b) hc,
          splitWs_ws_cons c a' hc]
      constructor
      · rfl
      · simp only [List.tail]
        rw [filterNE_splitTail, filterNE_splitTail]
        exact key
    | false =>
      rw [List.cons_append, List.cons_append, splitWs_not_ws_cons c (a' ++ s ++ b) hc,
          splitWs_not_ws_cons c a' hc]
      constructor
      · simp only [List.headI_cons]
        rw [(ih s b hs hne).1]
      · simp only [List.tail_cons]
        exact (ih s b hs hne).2

lemma tokens_append_sep (a s b : List Char) (hs : ∀ c ∈ s, isWS c = true)
    (hne : s ≠ []) : tokens (a ++ s ++ b) = tokens a ++ tokens b := by
  rw [tokens_eq_head_tail (a ++ s ++ b), tokens_eq_head_tail a]
  rw [(splitWs_append_sep a s b hs hne).1, (splitWs_append_sep a s b hs hne).2]
  simp [List.append_assoc]

lemma tokens_append_space (a b : List Char) :
    tokens (a ++ ' ' :: b) = tokens a ++ tokens b := by
  have h : a ++ ' ' :: b = a ++ [' '] ++ b := by simp
  rw [h]
  exact tokens_append_sep a [' '] b (by simp [isWS]) (by simp)

lemma tokens_append_allws (x t : List Char) (h : ∀ c ∈ t, isWS c = true) :
    tokens (x ++ t) = tokens x := by
  cases t with
  | nil => simp
  | cons c r =>
    have h2 : x ++ c :: r = x ++ (c :: r) ++ [] := by simp
    rw [h2, tokens_append_sep x (c :: r) [] h (by simp), tokens_nil]
    simp

lemma tokens_dropWhile (s : List Char) :
    tokens (s.dropWhile isWS) = tokens s := by
  induction s with
  | nil => rfl
  | cons c r ih =>
    cases hc : isWS c with
    | true =>
      rw [List.dropWhile_cons_of_pos (by simp [hc]), ih,
          tokens_ws_cons c r hc]
    | false =>
      rw [List.dropWhile_cons_of_neg (by simp [hc])]

lemma tokens_trim (s : List Char) : tokens (trim s) = tokens s := by
  unfold trim
  set u := s.dropWhile isWS with hu
  have h1 : tokens u = tokens s := tokens_dropWhile s
  have hdecomp : u = (u.reverse.dropWhile isWS).reverse
      ++ (u.reverse.takeWhile isWS).reverse := by
    conv_lhs => rw [← List.reverse_reverse u]
    conv_lhs => rw [← List.takeWhile_append_dropWhile (p := isWS) (l := u.reverse)]
    rw [List.reverse_append]
  have hallws : ∀ c ∈ (u.reverse.takeWhile isWS).reverse, isWS c = true := by
    intro c hc
    rw [List.mem_reverse] at hc
    exact List.mem_takeWhile_imp hc
  calc tokens (u.reverse.dropWhile isWS).reverse
      = tokens ((u.reverse.dropWhile isWS).reverse
          ++ (u.reverse.takeWhile isWS).reverse) := by
        rw [tokens_append_allws _ _ hallws]
    _ = tokens u := by rw [← hdecomp]
    _ = tokens s := h1

lemma tokens_of_trim_nil (s : List Char) (h : trim s = []) : tokens s = [] := by
  rw [← tokens_trim s, h, tokens_nil]

lemma dropWhile_no_ws (s : List Char) (h : ∀ c ∈ s, isWS c = false) :
    s.dropWhile isWS = s := by
  cases s with
  | nil => rfl
  | cons c r => exact List.dropWhile_cons_of_neg (by simp [h c (by simp)])

lemma trim_no_ws (s : List Char) (h : ∀ c ∈ s, isWS c = false) : trim s = s := by
  unfold trim
  rw [dropWhile_no_ws s h]
  rw [dropWhile_no_ws s.reverse (fun c hc => h c (List.mem_reverse.1 hc))]
  exact List.reverse_reverse s

lemma dropWhile_length_le (p : Char → Bool) (l : List Char) :
    (l.dropWhile p).length ≤ l.length := by
  induction l with
  | nil => simp
  | cons a l ih =>
    rw [List.dropWhile_cons]
    split
    · simp only [List.length_cons]
      omega
    · exact le_rfl

lemma trim_length_le (s : List Char) : (trim s).length ≤ s.length := by
  unfold trim
  calc ((s.dropWhile isWS).reverse.dropWhile isWS).reverse.length
      = ((s.dropWhile isWS).reverse.dropWhile isWS).length := List.length_reverse _
    _ ≤ (s.dropWhile isWS).reverse.length := dropWhile_length_le _ _
    _ = (s.dropWhile isWS).length := List.length_reverse _
    _ ≤ s.length := dropWhile_length_le _ _

/-- The chunk loop preserves the token sequence: joining the tokens of the
produced chunks yields the tokens of the accumulator followed by the tokens
of the remaining words. -/
lemma chunksGo_tokens (C : Nat) (toks : List (List Char)) :
    ∀ cur : List Char,
      ((chunksGo C cur toks).map tokens).flatten
        = tokens cur ++ (toks.map tokens).flatten := by
  induction toks with
  | nil =>
    intro cur
    unfold chunksGo
    by_cases h : trim cur = []
    · simp [h, tokens_of_trim_nil cur h]
    · simp [h, tokens_trim]
  | cons w rest ih =>
    intro cur
    unfold chunksGo
    by_cases hlen : (cur ++ ' ' :: w).length > C
    · simp only [hlen, if_true, List.map_cons, List.flatten_cons]
      rw [tokens_trim, ih w]
    · simp only [hlen, if_false]
      rw [ih (cur ++ ' ' :: w), tokens_append_space]
      simp [List.append_assoc]

lemma join_tokens_filter (L : List (List Char))
    (key : ∀ t ∈ L, tokens t = if t.isEmpty then [] else [t]) :
    (L.map tokens).flatten = L.filter (fun t => !t.isEmpty) := by
  induction L with
  | nil => simp
  | cons t ts ih =>
    simp only [List.map_cons, List.flatten, List.filter_cons]
    rw [key t (by simp), ih (fun u hu => key u (by simp [hu]))]
    cases ht : t.isEmpty <;> simp [ht]

lemma join_tokens_splitWs (text : List Char) :
    ((splitWs text).map tokens).flatten = tokens text := by
  rw [join_tokens_filter (splitWs text)
    (fun t ht => tokens_no_ws t (splitWs_mem_no_ws text t ht))]
  rfl

lemma tokens_joinSp (L : List (List Char)) :
    tokens (joinSp L) = (L.map tokens).flatten := by
  induction L with
  | nil => simp [joinSp, tokens_nil]
  | cons x xs ih =>
    cases xs with
    | nil => simp [joinSp]
    | cons y ys =>
      show tokens (x ++ ' ' :: joinSp (y :: ys)) = _
      rw [tokens_append_space, ih]
      simp

/-- Every chunk produced by the loop is within budget or is one of the
supplied words. -/
lemma chunksGo_bound (C : Nat) (T : List (List Char))
    (hT : ∀ w ∈ T, ∀ c ∈ w, isWS c = false) (toks : List (List Char)) :
    ∀ cur : List Char, (∀ w ∈ toks, w ∈ T) →
      ((trim cur).length ≤ C ∨ (cur ∈ T ∧ ∀ c ∈ cur, isWS c = false)) →
      ∀ ch ∈ chunksGo C cur toks, ch.length ≤ C ∨ ch ∈ T := by
  induction toks with
  | nil =>
    intro cur _ hcur ch hch
    unfold chunksGo at hch
    by_cases h : trim cur = []
    · simp [h] at hch
    · simp only [h, if_false, List.mem_singleton] at hch
      subst hch
      rcases hcur with h1 | ⟨hmem, hno⟩
      · exact Or.inl h1
      · rw [trim_no_ws cur hno]
        exact Or.inr hmem
  | cons w rest ih =>
    intro cur hsub hcur ch hch
    unfold chunksGo at hch
    by_cases hlen : (cur ++ ' ' :: w).length > C
    · simp only [hlen, if_true, List.mem_cons] at hch
      rcases hch with h | h
      · subst h
        rcases hcur with h1 | ⟨hmem, hno⟩
        · exact Or.inl h1
        · rw [trim_no_ws cur hno]
          exact Or.inr hmem
      · exact ih w (fun u hu => hsub u (by simp [hu]))
          (Or.inr ⟨hsub w (by simp), hT w (hsub w (by simp))⟩) ch h
    · simp only [hlen, if_false] at hch
      refine ih (cur ++ ' ' :: w) (fun u hu => hsub u (by simp [hu])) (Or.inl ?_) ch hch
      calc (trim (cur ++ ' ' :: w)).length ≤ (cur ++ ' ' :: w).length :=
            trim_length_le _
        _ ≤ C := by omega

/-- Claim C5: for every text longer than the budget `C`, the greedy splitter
preserves the token sequence — joining the chunks with single spaces and
normalizing whitespace reproduces the tokens of the original text (so chunks
cover the tokens in original order with no overlap and no gaps) — and no
chunk exceeds `C` characters except one that is a single original token
(which then itself exceeds `C`). -/
theorem chunking_reconstruction (C : Nat) (text : List Char)
    (h : C < text.length) :
    tokens (joinSp (chunkText C text)) = tokens text ∧
    ∀ ch ∈ chunkText C text, ch.length ≤ C ∨ ch ∈ tokens text := by
  constructor
  · rw [tokens_joinSp]
    unfold chunkText
    rw [chunksGo_tokens C (splitWs text) [], tokens_nil, List.nil_append]
    exact join_tokens_splitWs text
  · intro ch hch
    have hbound := chunksGo_bound C (splitWs text) (splitWs_mem_no_ws text)
      (splitWs text) [] (fun u hu => hu)
      (Or.inl (by simp [trim])) ch hch
    rcases hbound with h1 | h1
    · exact Or.inl h1
    · by_cases hlen : ch.length ≤ C
      · exact Or.inl hlen
      · refine Or.inr (List.mem_filter.2 ⟨h1, ?_⟩)
        cases ch with
        | nil => simp at hlen
        | cons a l => simp

/-- Witness for C5 at `C = 5`, text `ab cd ef gh` (length 11 > 5; the chunks
are `ab`, `cd ef`, `gh`). -/
theorem chunking_reconstruction_witness :
    5 < (("ab cd ef gh").toList).length ∧
    (tokens (joinSp (chunkText 5 (("ab cd ef gh").toList)))
        = tokens (("ab cd ef gh").toList) ∧
     ∀ ch ∈ chunkText 5 (("ab cd ef gh").toList),
       ch.length ≤ 5 ∨ ch ∈ tokens (("ab cd ef gh").toList)) :=
  ⟨by decide, chunking_reconstruction 5 (("ab cd ef gh").toList) (by decide)⟩

lemma mapIdxFrom_length {α β : Type} (f : Nat → α → β) :
    ∀ (i : Nat) (l : List α), (mapIdxFrom f i l).length = l.length := by
  intro i l
  induction l generalizing i with
  | nil => rfl
  | cons a as ih => simp [mapIdxFrom, ih]

/-- Claim C6: (i) a text within the budget produces exactly one inference
call — the direct call — and its output is returned directly, with no
combine call; (ii) when chunking yields exactly one chunk, the pipeline
issues only that chunk's call and returns its partial output unchanged — no
combine call; (iii) when chunking yields n > 1 chunks, the pipeline issues
the n per-chunk calls in original order followed by exactly one final
combine call over the partial outputs in chunk order, returning the combine
output. -/
theorem pipeline_call_structure (C : Nat) (mode : PipeMode) (ai : AICall → String)
    (text : String) :
    (text.length ≤ C →
      pipelineC C mode ai text
        = (some (ai (directCall mode text)), [directCall mode text])) ∧
    (∀ ch, C < text.length → chunkText C text.toList = [ch] →
      pipelineC C mode ai text
        = (some (ai ⟨chunkSystemPromptStr mode 0 1,
                     chunkUserPromptStr (String.mk ch), 2048⟩),
           [⟨chunkSystemPromptStr mode 0 1, chunkUserPromptStr (String.mk ch), 2048⟩])) ∧
    (C < text.length → 1 < (chunkText C text.toList).length →
      pipelineC C mode ai text
        = (some (ai (pipelineCombineCall C mode ai text)),
           pipelineChunkCalls C mode text ++ [pipelineCombineCall C mode ai text]) ∧
      (pipelineChunkCalls C mode text).length = (chunkText C text.toList).length) := by
  refine ⟨fun hle => ?_, fun ch hgt hone => ?_, fun hgt hn => ⟨?_, ?_⟩⟩
  · simp [pipelineC, hle]
  · have hchunks : pipelineChunks C text = [String.mk ch] := by
      rw [pipelineChunks, hone]
      rfl
    unfold pipelineC
    rw [if_neg (by omega)]
    rw [pipelineChunkCalls, hchunks]
    simp [mapIdxFrom]
  · have hlen : 1 < ((pipelineChunkCalls C mode text).map ai).length := by
      rw [List.length_map, pipelineChunkCalls, mapIdxFrom_length, pipelineChunks,
          List.length_map]
      exact hn
    unfold pipelineC
    rw [if_neg (by omega)]
    simp only [hlen, if_true]
  · rw [pipelineChunkCalls, mapIdxFrom_length, pipelineChunks, List.length_map]

/-- Witness for C6: at budget 5, text `hi` takes the direct path; text
`a      b` (8 chars, one chunk `a b`) skips the combine; text `aaa bbb ccc`
(3 chunks) issues 3 chunk calls and one combine call. -/
theorem pipeline_call_structure_witness :
    pipelineC 5 .summarize (fun _ => "S") ("hi")
      = (some ("S"), [directCall .summarize ("hi")]) ∧
    pipelineC 5 .summarize (fun _ => "S") ("a      b")
      = (some ("S"),
         [⟨chunkSystemPromptStr .summarize 0 1, chunkUserPromptStr ("a b"), 2048⟩]) ∧
    pipelineC 5 .summarize (fun _ => "S") ("aaa bbb ccc")
      = (some ("S"),
         pipelineChunkCalls 5 .summarize ("aaa bbb ccc")
           ++ [pipelineCombineCall 5 .summarize (fun _ => "S") ("aaa bbb ccc")]) ∧
    (pipelineChunkCalls 5 .summarize ("aaa bbb ccc")).length = 3 := by
  refine ⟨?_, ?_, ?_, ?_⟩
  · exact (pipeline_call_structure 5 .summarize (fun _ => "S") ("hi")).1 (by decide)
  · exact (pipeline_call_structure 5 .summarize (fun _ => "S") ("a      b")).2.1
      (("a b").toList) (by decide) (by decide)
  · exact ((pipeline_call_structure 5 .summarize (fun _ => "S") ("aaa bbb ccc")).2.2
      (by decide) (by decide)).1
  · have h := ((pipeline_call_structure 5 .summarize (fun _ => "S") ("aaa bbb ccc")).2.2
      (by decide) (by decide)).2
    rw [h]
    decide

/-- Claim C10 (implicit): when the input exceeds the 12000-character budget
and its first whitespace-delimited token already has length ≥ 12000, the
loop's first iteration overflows with `currentChunk` still empty, so the
empty string is pushed as the first chunk: the chunk list is the empty chunk
followed by the loop restarted from that token, the chunk count is one more
than that continuation's, and the first per-chunk inference call carries
empty section content (`Lecture Section:` followed by nothing). -/
theorem oversized_first_token_empty_chunk (mode : PipeMode) (ai : AICall → String)
    (text : String) (w : List Char) (ws' : List (List Char))
    (hsplit : splitWs text.toList = w :: ws')
    (hw : MAX_CHARS_PER_CHUNK ≤ w.length)
    (hlen : MAX_CHARS_PER_CHUNK < text.length) :
    chunkText MAX_CHARS_PER_CHUNK text.toList
      = [] :: chunksGo MAX_CHARS_PER_CHUNK w ws' ∧
    (chunkText MAX_CHARS_PER_CHUNK text.toList).length
      = (chunksGo MAX_CHARS_PER_CHUNK w ws').length + 1 ∧
    (pipelineC MAX_CHARS_PER_CHUNK mode ai text).2.head?
      = some ⟨chunkSystemPromptStr mode 0
                (chunkText MAX_CHARS_PER_CHUNK text.toList).length,
              "Lecture Section:\n\n", 2048⟩ := by
  have hover : ([] ++ ' ' :: w).length > MAX_CHARS_PER_CHUNK := by
    simp only [List.nil_append, List.length_cons]
    omega
  have hstep : chunksGo MAX_CHARS_PER_CHUNK [] (w :: ws')
      = trim [] :: chunksGo MAX_CHARS_PER_CHUNK w ws' := by
    simp only [chunksGo]
    rw [if_pos hover]
  have hchunk : chunkText MAX_CHARS_PER_CHUNK text.toList
      = [] :: chunksGo MAX_CHARS_PER_CHUNK w ws' := by
    unfold chunkText
    rw [hsplit, hstep]
    rfl
  refine ⟨hchunk, by rw [hchunk]; simp, ?_⟩
  have hcc : pipelineChunks MAX_CHARS_PER_CHUNK text
      = String.mk [] :: (chunksGo MAX_CHARS_PER_CHUNK w ws').map String.mk := by
    rw [pipelineChunks, hchunk, List.map_cons]
  have hempty : chunkUserPromptStr (String.mk []) = "Lecture Section:\n\n" := rfl
  unfold pipelineC
  rw [if_neg (by omega)]
  simp only []
  split <;>
  · rw [pipelineChunkCalls, hcc, hchunk]
    simp [mapIdxFrom, hempty, List.length_map]

/-- Witness for C10: a text of 12001 `a` characters (a single oversized
token): the chunk list starts with the empty chunk and the loop continues
from the full token. -/
theorem oversized_first_token_empty_chunk_witness :
    chunkText MAX_CHARS_PER_CHUNK ((String.mk (List.replicate 12001 'a')).toList)
      = [] :: chunksGo MAX_CHARS_PER_CHUNK (List.replicate 12001 'a') [] ∧
    (pipelineC MAX_CHARS_PER_CHUNK .summarize (fun _ => "S")
        (String.mk (List.replicate 12001 'a'))).2.head?
      = some ⟨chunkSystemPromptStr .summarize 0
                (chunkText MAX_CHARS_PER_CHUNK
                  ((String.mk (List.replicate 12001 'a')).toList)).length,
              "Lecture Section:\n\n", 2048⟩ := by
  have hno : ∀ c ∈ List.replicate 12001 'a', isWS c = false := by
    intro c hc
    rw [List.eq_of_mem_replicate hc]
    rfl
  have hsplit : splitWs ((String.mk (List.replicate 12001 'a')).toList)
      = List.replicate 12001 'a' :: [] :=
    splitWs_no_ws (List.replicate 12001 'a') hno
  have hw : MAX_CHARS_PER_CHUNK ≤ (List.replicate 12001 'a').length := by
    rw [List.length_replicate]
    norm_num [MAX_CHARS_PER_CHUNK]
  have hlen : MAX_CHARS_PER_CHUNK < (String.mk (List.replicate 12001 'a')).length := by
    show MAX_CHARS_PER_CHUNK < (List.replicate 12001 'a').length
    rw [List.length_replicate]
    norm_num [MAX_CHARS_PER_CHUNK]
  have h := oversized_first_token_empty_chunk .summarize (fun _ => "S")
    (String.mk (List.replicate 12001 'a')) (List.replicate 12001 'a') []
    hsplit hw hlen
  exact ⟨h.1, h.2.2⟩

end LectureLens
